import Mathlib

/-!
Verification of the data-cleansing pipeline of `BusinessDashboard.py`.

The pipeline operates on one in-memory table in five stages:
1. schema normalization (Year/Month Number/Date typing),
2. numeric coercion of the eight designated numeric columns,
3. non-negativity enforcement (clamp negatives to zero),
4. Profit reconciliation (fill missing Profit with Sales - COGS),
5. outlier bounding by IQR fences (detection pass, then capping pass).

Modelling conventions:
* a table cell as loaded is `Cell` (a parsed number, a string, or NaN);
* numeric values are rationals (`ℚ`); pandas floats carry no claim-relevant
  rounding here, and NaN/None are an explicit `Option`/`Cell.na` marker;
* a numeric column is `Option (List ...)`: `none` means the column is absent
  from the schema;
* stages that can raise (KeyError on an absent column, astype failure)
  return `Except String _`;
* `pd.Series.replace({.. patterns ..}, regex=True)` is modelled after the
  pandas implementation: each (pattern, replacement) pair is applied in dict
  order over the evolving values, restricted to the cells whose ORIGINAL
  value matched the pattern; a string replacement is regex substitution, a
  NaN replacement replaces the whole cell when the pattern also occurs in
  the current value, and the empty pattern is special-cased by pandas
  (`should_use_regex` refuses an empty regex) to an exact equality match;
* `pd.to_datetime(_, errors="coerce")` is abstracted as a per-cell parser
  argument `parseDate`; no claim depends on calendar semantics.
-/

/-- One raw cell of the loaded table: a number, a string, or NaN. -/
inductive Cell : Type where
  | num (q : ℚ)
  | str (s : String)
  | na
deriving DecidableEq

/-- Value of a list of decimal digit characters. -/
def digitsVal (l : List Char) : ℕ :=
  l.foldl (fun n c => 10 * n + (c.toNat - 48)) 0

/-- Drop leading and trailing space characters. -/
def trimSpaces (l : List Char) : List Char :=
  ((l.dropWhile (· = ' ')).reverse.dropWhile (· = ' ')).reverse

/-- Does `pat` occur as a contiguous substring of `l`? (`re.search` with a
literal pattern). -/
def containsSub (l pat : List Char) : Bool :=
  l.tails.any (fun t => pat.isPrefixOf t)

/-- Parse an optional exponent sign followed by digits (the tail of a float
literal after `e`/`E`). -/
def parseExpPart (l : List Char) : Option ℤ :=
  match l with
  | '+' :: ds => if ds ≠ [] ∧ ds.all Char.isDigit then some (digitsVal ds) else none
  | '-' :: ds => if ds ≠ [] ∧ ds.all Char.isDigit then some (-(digitsVal ds : ℤ)) else none
  | ds => if ds ≠ [] ∧ ds.all Char.isDigit then some (digitsVal ds) else none

/-- Parse an unsigned decimal literal `digits [. digits] [(e|E) exp]` into a
rational. Returns `none` when the shape is not a numeric literal. -/
def parseUnsigned (l : List Char) : Option ℚ :=
  let ip := l.takeWhile Char.isDigit
  let rest₁ := l.drop ip.length
  match rest₁ with
  | '.' :: rest₂ =>
    let fp := rest₂.takeWhile Char.isDigit
    let rest₃ := rest₂.drop fp.length
    if ip = [] ∧ fp = [] then none else
    let mant : ℚ := (digitsVal ip : ℚ) + (digitsVal fp : ℚ) / ((10 : ℚ) ^ fp.length)
    match rest₃ with
    | [] => some mant
    | 'e' :: es => (parseExpPart es).map (fun e => mant * (10 : ℚ) ^ e)
    | 'E' :: es => (parseExpPart es).map (fun e => mant * (10 : ℚ) ^ e)
    | _ => none
  | [] => if ip = [] then none else some (digitsVal ip : ℚ)
  | 'e' :: es =>
    if ip = [] then none else (parseExpPart es).map (fun e => (digitsVal ip : ℚ) * (10 : ℚ) ^ e)
  | 'E' :: es =>
    if ip = [] then none else (parseExpPart es).map (fun e => (digitsVal ip : ℚ) * (10 : ℚ) ^ e)
  | _ => none

/-- Parse a decimal literal with optional leading sign, as accepted by
`pd.to_numeric` (surrounding whitespace stripped, otherwise strict). -/
def parseRat (s : String) : Option ℚ :=
  match trimSpaces s.toList with
  | '-' :: rest => (parseUnsigned rest).map (fun q => -q)
  | '+' :: rest => parseUnsigned rest
  | rest => parseUnsigned rest

/-- Delete every occurrence of character `c` (regex substitution of a
one-character literal pattern with the empty string). -/
def deleteChar (c : Char) (l : List Char) : List Char :=
  l.filter (fun a => a ≠ c)

/-- The three substitution rules of the `replace` dict applied in order:
`\$` -> ``, `,` -> ``, `-` -> ``. -/
def cleanedChars (l : List Char) : List Char :=
  deleteChar '-' (deleteChar ',' (deleteChar '$' l))

/-- The NaN-replacement rules of the `replace` dict. The empty pattern is an
exact match on the original value (pandas refuses an empty regex); the other
patterns are regex searches whose mask is taken on the original value and
whose substitution re-checks the current value. -/
def sentinelHit (orig cur : List Char) : Bool :=
  (orig.isEmpty) ||
  (containsSub orig "N/A".toList && containsSub cur "N/A".toList) ||
  (containsSub orig "None".toList && containsSub cur "None".toList) ||
  (containsSub orig "---".toList && containsSub cur "---".toList)

/-- `Series.replace({'\$': '', ',': '', '-': '', '': nan, 'N/A': nan,
'None': nan, '---': nan}, regex=True)` on one cell. Non-string cells are
untouched (their block cannot hold the string patterns). -/
def replaceCell (c : Cell) : Cell :=
  match c with
  | .str s =>
    let orig := s.toList
    let cur := cleanedChars orig
    if sentinelHit orig cur then .na else .str (String.mk cur)
  | c => c

/-- `pd.to_numeric(_, errors="coerce")` on one cell. -/
def toNumericCell (c : Cell) : Option ℚ :=
  match c with
  | .num q => some q
  | .na => none
  | .str s => parseRat s

/-- Stage-2 treatment of one cell of a designated numeric column: textual
cleanup, then coercion to numeric. -/
def coerceCell (c : Cell) : Option ℚ :=
  toNumericCell (replaceCell c)

/-- Effectful map over a list, stopping at the first error (the way a
Python loop raises out of its iteration). -/
def mapE (f : α → Except ε β) : List α → Except ε (List β)
  | [] => .ok []
  | x :: xs =>
    match f x with
    | .error e => .error e
    | .ok b => (mapE f xs).map (fun bs => b :: bs)

/-- The eight designated numeric columns, in source order
(`numeric_columns` in `BusinessDashboard.py`). -/
inductive NumField : Type where
  | unitsSold | manufacturingPrice | salePrice | grossSales
  | discounts | sales | cogs | profit
deriving DecidableEq

/-- `numeric_columns`, as the ordered list the loops iterate over. -/
def numeric_columns : List NumField :=
  [.unitsSold, .manufacturingPrice, .salePrice, .grossSales,
   .discounts, .sales, .cogs, .profit]

/-- Source column label of a designated numeric field. -/
def colName : NumField → String
  | .unitsSold => "Units Sold"
  | .manufacturingPrice => "Manufacturing Price"
  | .salePrice => "Sale Price"
  | .grossSales => "Gross Sales"
  | .discounts => "Discounts"
  | .sales => "Sales"
  | .cogs => "COGS"
  | .profit => "Profit"

/-- The table as loaded (column names already stripped): typed Year /
Month Number / Date still raw, categorical columns, and the designated
numeric columns, each possibly absent from the schema (`none`). -/
structure RawTable : Type where
  year : List Cell
  monthNumber : List Cell
  date : List Cell
  monthName : List String
  segment : List String
  country : List String
  product : List String
  unitsSold : Option (List Cell)
  manufacturingPrice : Option (List Cell)
  salePrice : Option (List Cell)
  grossSales : Option (List Cell)
  discounts : Option (List Cell)
  sales : Option (List Cell)
  cogs : Option (List Cell)
  profit : Option (List Cell)
deriving DecidableEq

/-- The table after stage 1, with the numeric columns holding cells of
type `α` (`Cell` after stage 1, `Option ℚ` after stage 2). -/
structure Table (α : Type) : Type where
  year : List ℤ
  monthNumber : List ℤ
  date : List (Option String)
  monthName : List String
  segment : List String
  country : List String
  product : List String
  unitsSold : Option (List α)
  manufacturingPrice : Option (List α)
  salePrice : Option (List α)
  grossSales : Option (List α)
  discounts : Option (List α)
  sales : Option (List α)
  cogs : Option (List α)
  profit : Option (List α)
deriving DecidableEq

/-- `company_df[col]` for a designated numeric column (`none` = absent). -/
def getCol (t : Table α) : NumField → Option (List α)
  | .unitsSold => t.unitsSold
  | .manufacturingPrice => t.manufacturingPrice
  | .salePrice => t.salePrice
  | .grossSales => t.grossSales
  | .discounts => t.discounts
  | .sales => t.sales
  | .cogs => t.cogs
  | .profit => t.profit

/-- Apply a per-column transformation to every present designated numeric
column, leaving everything else untouched. This is the shape of the loops
`for column in numeric_columns: if column in company_df.columns: ...`. -/
def applyNum (f : List α → List β) (t : Table α) : Table β :=
  ⟨t.year, t.monthNumber, t.date, t.monthName, t.segment, t.country, t.product,
   t.unitsSold.map f, t.manufacturingPrice.map f, t.salePrice.map f,
   t.grossSales.map f, t.discounts.map f, t.sales.map f,
   t.cogs.map f, t.profit.map f⟩

/-- Round half to even (numpy/pandas `Series.round()` semantics). -/
def roundHalfEven (q : ℚ) : ℤ :=
  let f := ⌊q⌋
  let r := q - f
  if r < 1/2 then f
  else if 1/2 < r then f + 1
  else if f % 2 = 0 then f else f + 1

/-- Truncation toward zero (`astype(int)` on a float). -/
def truncInt (q : ℚ) : ℤ :=
  if q < 0 then ⌈q⌉ else ⌊q⌋

/-- Parse an integer literal as Python `int(str)` does (whitespace
stripped, optional sign, digits). -/
def parseIntStr (s : String) : Option ℤ :=
  match trimSpaces s.toList with
  | '-' :: ds => if ds ≠ [] ∧ ds.all Char.isDigit then some (-(digitsVal ds : ℤ)) else none
  | '+' :: ds => if ds ≠ [] ∧ ds.all Char.isDigit then some (digitsVal ds) else none
  | ds => if ds ≠ [] ∧ ds.all Char.isDigit then some (digitsVal ds) else none

/-- `company_df['Year'].round().astype(int)` on one cell: a numeric cell is
rounded (half to even) and truncated; NaN or a non-numeric cell makes the
whole conversion fail (fatal). -/
def year_to_int : Cell → Except String ℤ
  | .num q => .ok (roundHalfEven q)
  | .str _ => .error "TypeError: cannot round a non-numeric column"
  | .na => .error "ValueError: cannot convert NaN to integer"

/-- `company_df['Month Number'].astype(int)` on one cell: truncate a
numeric cell; parse an integer literal string; fail on NaN. -/
def month_to_int : Cell → Except String ℤ
  | .num q => .ok (truncInt q)
  | .str s => match parseIntStr s with
    | some z => .ok z
    | none => .error "ValueError: invalid literal for int"
  | .na => .error "ValueError: cannot convert NaN to integer"

/-- Stage 1, the Schema Normalizer: fix Year, Month Number and Date types.
`pd.to_datetime(_, errors="coerce")` is abstracted by the per-cell parser
`parseDate` (unparseable dates become `none`, never an error). -/
def stage1 (parseDate : Cell → Option String) (r : RawTable) :
    Except String (Table Cell) := do
  let ys ← mapE year_to_int r.year
  let ms ← mapE month_to_int r.monthNumber
  .ok ⟨ys, ms, r.date.map parseDate, r.monthName, r.segment, r.country, r.product,
       r.unitsSold, r.manufacturingPrice, r.salePrice, r.grossSales,
       r.discounts, r.sales, r.cogs, r.profit⟩

/-- Stage 2, the Numeric Coercer: `replace` then `to_numeric` on every
present designated numeric column (two source loops, one designated column
at a time; per column the composition below). -/
def stage2 (t : Table Cell) : Table (Option ℚ) :=
  applyNum (List.map coerceCell) t

/-- Is some value of the column negative? (`(company_df[column] < 0).any()`;
a NaN comparison is never true). -/
def anyNegative (col : List (Option ℚ)) : Bool :=
  col.any (fun c => match c with
    | some v => decide (v < 0)
    | none => false)

/-- Clamp an entire column at zero when it holds any negative value
(`company_df[column].apply(lambda x: max(x, 0))`; Python `max(nan, 0)` is
`nan`, so missing stays missing). -/
def clamp_column (col : List (Option ℚ)) : List (Option ℚ) :=
  if anyNegative col then col.map (fun c => c.map (fun v => max v 0)) else col

/-- Diagnostic printed when a column held negatives. -/
def negMsg (f : NumField) : String :=
  "Negative values found in " ++ colName f ++ ". Correcting them to zero."

/-- Diagnostic printed when a designated column is absent. -/
def notFoundMsg (f : NumField) : String :=
  "Column '" ++ colName f ++ "' not found in DataFrame."

/-- Stage 3, the Non-Negativity Enforcer: clamp the present columns and
collect the printed diagnostics in loop order. -/
def stage3 (t : Table (Option ℚ)) : Table (Option ℚ) × List String :=
  (applyNum clamp_column t,
   numeric_columns.foldr
     (fun f acc =>
       (match getCol t f with
        | some col => if anyNegative col then [negMsg f] else []
        | none => [notFoundMsg f]) ++ acc) [])

/-- `row['Sales'] - row['COGS']` with NaN propagation. -/
def subOpt : Option ℚ → Option ℚ → Option ℚ
  | some a, some b => some (a - b)
  | _, _ => none

/-- The row count `apply(..., axis=1)` iterates over. -/
def n_rows (t : Table α) : ℕ := t.year.length

/-- The reconciliation lambda on row `i`: `row['Sales'] - row['COGS'] if
pd.isna(row['Profit']) else row['Profit']`. The conditional is evaluated
lazily, so `Sales`/`COGS` are only looked up (KeyError if absent) on rows
whose Profit is missing; `row['Profit']` is always looked up. -/
def reconcile_row (t : Table (Option ℚ)) (i : ℕ) : Except String (Option ℚ) :=
  match t.profit with
  | none => .error "KeyError: 'Profit'"
  | some pc =>
    match pc[i]? with
    | none => .error "IndexError: row out of bounds"
    | some (some p) => .ok (some p)
    | some none =>
      match t.sales, t.cogs with
      | some sc, some cc =>
        match sc[i]?, cc[i]? with
        | some a, some b => .ok (subOpt a b)
        | _, _ => .error "IndexError: row out of bounds"
      | _, _ => .error "KeyError: 'Sales' or 'COGS'"

/-- Stage 4, the Profit Reconciler: recompute Profit where it is missing
and assign the resulting column back to the table. -/
def stage4 (t : Table (Option ℚ)) : Except String (Table (Option ℚ)) :=
  (mapE (reconcile_row t) (List.range (n_rows t))).map
    (fun newP => { t with profit := some newP })

/-- The non-missing values of a column, sorted ascending (what pandas
`quantile` interpolates over after dropping NaN). -/
def sortedVals (col : List (Option ℚ)) : List ℚ :=
  List.insertionSort (· ≤ ·) (col.filterMap id)

/-- Linear interpolation between order statistics of a sorted nonempty
list: position `h = q * (n - 1)` interpolated between the floor and ceil
order statistics (pandas `interpolation='linear'`, the default). -/
def quantileOfSorted (xs : List ℚ) (q : ℚ) : ℚ :=
  let h : ℚ := q * ((xs.length : ℚ) - 1)
  let k : ℕ := (⌊h⌋).toNat
  let a : ℚ := xs.getD k 0
  let b : ℚ := xs.getD (k + 1) a
  a + (h - (k : ℚ)) * (b - a)

/-- `Series.quantile(q)`: drop NaN, sort, interpolate; NaN (here `none`)
when no value remains. -/
def quantile (col : List (Option ℚ)) (q : ℚ) : Option ℚ :=
  let xs := sortedVals col
  if xs.isEmpty then none else some (quantileOfSorted xs q)

/-- `lower_bound = Q1 - 1.5 * IQR` with `IQR = Q3 - Q1`. -/
def lower_bound (q1 q3 : ℚ) : ℚ := q1 - 3/2 * (q3 - q1)

/-- `upper_bound = Q3 + 1.5 * IQR` with `IQR = Q3 - Q1`. -/
def upper_bound (q1 q3 : ℚ) : ℚ := q3 + 3/2 * (q3 - q1)

/-- `(company_df[column] < lower_bound) | (company_df[column] > upper_bound)`
per row; comparisons with NaN (missing value, or NaN bounds when the column
is all-missing) are false. -/
def outlier_mask (col : List (Option ℚ)) : List Bool :=
  match quantile col (1/4), quantile col (3/4) with
  | some q1, some q3 =>
    col.map (fun c => match c with
      | some v => decide (v < lower_bound q1 q3) || decide (v > upper_bound q1 q3)
      | none => false)
  | _, _ => col.map (fun _ => false)

/-- `detect_outliers(company_df, columns)`: for each listed column, the
rows outside the fences. Accesses every listed column unconditionally, so
it raises KeyError on the first absent one. -/
def detect_outliers (t : Table (Option ℚ)) (columns : List NumField) :
    Except String (List (List Bool)) :=
  mapE (fun f =>
    match getCol t f with
    | none => .error ("KeyError: '" ++ colName f ++ "'")
    | some col => .ok (outlier_mask col)) columns

/-- Pointwise lower cap `np.where(v < l, l, v)`. -/
def capLow (l v : ℚ) : ℚ := if v < l then l else v

/-- Pointwise upper cap `np.where(v > u, u, v)`. -/
def capHigh (u v : ℚ) : ℚ := if v > u then u else v

/-- `np.where(col < lower_bound, lower_bound, col)`: NaN stays NaN. -/
def where_lower (l : ℚ) (col : List (Option ℚ)) : List (Option ℚ) :=
  col.map (fun c => c.map (capLow l))

/-- `np.where(col > upper_bound, upper_bound, col)`: NaN stays NaN. -/
def where_upper (u : ℚ) (col : List (Option ℚ)) : List (Option ℚ) :=
  col.map (fun c => c.map (capHigh u))

/-- One iteration of the capping loop on a present column: recompute the
quantiles from the current column, then cap below and above. When the
column has no non-missing value the quantiles are NaN and both `np.where`
comparisons are false, leaving the column unchanged. -/
def bound_column (col : List (Option ℚ)) : List (Option ℚ) :=
  match quantile col (1/4), quantile col (3/4) with
  | some q1, some q3 =>
    where_upper (upper_bound q1 q3) (where_lower (lower_bound q1 q3) col)
  | _, _ => col

/-- Stage 5, the Outlier Bounder: the detection pass (whose value is only
a diagnostic but whose KeyError on an absent column aborts the stage),
then the capping loop. The capping loop accesses the same columns, so
once detection succeeded every designated column is present and capping
cannot fail. -/
def stage5 (t : Table (Option ℚ)) : Except String (Table (Option ℚ)) :=
  (detect_outliers t numeric_columns).map (fun _ => applyNum bound_column t)

/-- The whole pipeline: the five stages in source order, propagating the
first error and returning the cleaned table together with the stage-3
diagnostics. -/
def pipelineRun (parseDate : Cell → Option String) (r : RawTable) :
    Except String (Table (Option ℚ) × List String) := do
  let t1 ← stage1 parseDate r
  let t2 := stage2 t1
  let p3 := stage3 t2
  let t4 ← stage4 p3.1
  let t5 ← stage5 t4
  .ok (t5, p3.2)

/-- Does this `Option`-wrapped column, when present, have `n` rows? -/
def optRows (o : Option (List α)) (n : ℕ) : Bool :=
  match o with
  | none => true
  | some l => l.length == n

/-- Every column of the raw table has exactly `n` rows. -/
def rawHasRows (r : RawTable) (n : ℕ) : Bool :=
  r.year.length == n && r.monthNumber.length == n && r.date.length == n &&
  r.monthName.length == n && r.segment.length == n &&
  r.country.length == n && r.product.length == n &&
  optRows r.unitsSold n && optRows r.manufacturingPrice n &&
  optRows r.salePrice n && optRows r.grossSales n && optRows r.discounts n &&
  optRows r.sales n && optRows r.cogs n && optRows r.profit n

/-- Every column of the table has exactly `n` rows. -/
def hasRows (t : Table α) (n : ℕ) : Bool :=
  t.year.length == n && t.monthNumber.length == n && t.date.length == n &&
  t.monthName.length == n && t.segment.length == n &&
  t.country.length == n && t.product.length == n &&
  optRows t.unitsSold n && optRows t.manufacturingPrice n &&
  optRows t.salePrice n && optRows t.grossSales n && optRows t.discounts n &&
  optRows t.sales n && optRows t.cogs n && optRows t.profit n

/-- Did the computation succeed? -/
def exceptOk : Except ε α → Bool
  | .ok _ => true
  | .error _ => false

instance [DecidableEq ε] [DecidableEq α] : DecidableEq (Except ε α) := fun a b =>
  match a, b with
  | .ok x, .ok y =>
    match decEq x y with
    | isTrue h => isTrue (congrArg Except.ok h)
    | isFalse h => isFalse (fun hc => h (Except.ok.inj hc))
  | .error e, .error f =>
    match decEq e f with
    | isTrue h => isTrue (congrArg Except.error h)
    | isFalse h => isFalse (fun hc => h (Except.error.inj hc))
  | .ok _, .error _ => isFalse (fun hc => Except.noConfusion hc)
  | .error _, .ok _ => isFalse (fun hc => Except.noConfusion hc)

/-! ### Plumbing lemmas -/

theorem getCol_applyNum (f : List α → List β) (t : Table α) (c : NumField) :
    getCol (applyNum f t) c = (getCol t c).map f := by
  cases c <;> rfl

theorem mapE_ok_length {f : α → Except ε β} :
    ∀ {xs : List α} {l : List β}, mapE f xs = .ok l → l.length = xs.length := by
  intro xs
  induction xs with
  | nil => intro l h; simp [mapE] at h; simp [← h]
  | cons x xs ih =>
    intro l h
    rw [mapE] at h
    cases hx : f x with
    | error e => simp [hx] at h
    | ok b =>
      cases hxs : mapE f xs with
      | error e => simp [hx, hxs, Except.map] at h
      | ok bs =>
        simp [hx, hxs, Except.map] at h
        subst h
        simp [ih hxs]

theorem mapE_ok_getElem {f : α → Except ε β} :
    ∀ {xs : List α} {l : List β}, mapE f xs = .ok l →
      ∀ {i : ℕ} {a : α}, xs[i]? = some a → ∃ b, l[i]? = some b ∧ f a = .ok b := by
  intro xs
  induction xs with
  | nil => intro l _ i a ha; simp at ha
  | cons x xs ih =>
    intro l h i a ha
    rw [mapE] at h
    cases hx : f x with
    | error e => simp [hx] at h
    | ok b =>
      cases hxs : mapE f xs with
      | error e => simp [hx, hxs, Except.map] at h
      | ok bs =>
        simp [hx, hxs, Except.map] at h
        subst h
        cases i with
        | zero => simp at ha; subst ha; exact ⟨b, by simp, hx⟩
        | succ j =>
          simp at ha
          obtain ⟨b', hb', hfb'⟩ := ih hxs ha
          exact ⟨b', by simpa using hb', hfb'⟩

theorem anyNegative_eq_false {col : List (Option ℚ)}
    (h : ¬ anyNegative col = true) {v : ℚ} (hv : some v ∈ col) : 0 ≤ v := by
  unfold anyNegative at h
  rw [Bool.not_eq_true, List.any_eq_false] at h
  have hm := h _ hv
  simp at hm
  linarith

theorem clamp_column_nonneg {col : List (Option ℚ)} {v : ℚ}
    (hv : some v ∈ clamp_column col) : 0 ≤ v := by
  unfold clamp_column at hv
  by_cases hneg : anyNegative col = true
  · rw [if_pos hneg] at hv
    obtain ⟨c, _, hc⟩ := List.mem_map.mp hv
    cases c with
    | none => simp at hc
    | some w => simp at hc; simp [← hc]
  · rw [if_neg hneg] at hv
    exact anyNegative_eq_false hneg hv

theorem clamp_column_missing {col : List (Option ℚ)} {i : ℕ}
    (h : col[i]? = some none) : (clamp_column col)[i]? = some none := by
  unfold clamp_column
  by_cases hneg : anyNegative col = true
  · rw [if_pos hneg, List.getElem?_map, h]; rfl
  · rw [if_neg hneg]; exact h

theorem clamp_column_length (col : List (Option ℚ)) :
    (clamp_column col).length = col.length := by
  unfold clamp_column
  by_cases hneg : anyNegative col = true
  · rw [if_pos hneg, List.length_map]
  · rw [if_neg hneg]

theorem bound_column_length (col : List (Option ℚ)) :
    (bound_column col).length = col.length := by
  unfold bound_column
  cases quantile col (1/4) <;> cases quantile col (3/4) <;>
    simp [where_upper, where_lower]

/-- Elements of the capped column: each cell is the lower-then-upper cap of
the corresponding original cell (missing stays missing). -/
theorem mem_cap {l u : ℚ} {col : List (Option ℚ)} {v : ℚ}
    (hv : some v ∈ where_upper u (where_lower l col)) :
    ∃ w, some w ∈ col ∧ v = capHigh u (capLow l w) := by
  unfold where_upper where_lower at hv
  rw [List.map_map] at hv
  obtain ⟨c, hc, hcv⟩ := List.mem_map.mp hv
  cases c with
  | none => simp at hcv
  | some w =>
    refine ⟨w, hc, ?_⟩
    simp at hcv
    exact hcv.symm

theorem cap_mem_bounds {l u v w : ℚ} (hlu : l ≤ u)
    (hv : v = capHigh u (capLow l w)) : l ≤ v ∧ v ≤ u := by
  rw [hv]; unfold capHigh capLow
  constructor <;> split_ifs <;> linarith

theorem cap_nonneg {l u v w : ℚ} (hw : 0 ≤ w) (hu : 0 ≤ u)
    (hv : v = capHigh u (capLow l w)) : 0 ≤ v := by
  rw [hv]; unfold capHigh capLow
  split_ifs <;> linarith

/-! ### Quantile lemmas -/

theorem sortedVals_sorted (col : List (Option ℚ)) :
    (sortedVals col).Sorted (· ≤ ·) :=
  List.sorted_insertionSort _ _

theorem mem_sortedVals {col : List (Option ℚ)} {v : ℚ} :
    v ∈ sortedVals col ↔ some v ∈ col := by
  unfold sortedVals
  rw [(List.perm_insertionSort _ _).mem_iff, List.mem_filterMap]
  constructor
  · rintro ⟨a, ha, hav⟩
    simpa [← hav] using ha
  · intro hv
    exact ⟨some v, hv, rfl⟩

/-- The lower interpolation index of pandas `quantile`. -/
def qIndex (xs : List ℚ) (q : ℚ) : ℕ :=
  (⌊q * ((xs.length : ℚ) - 1)⌋).toNat

theorem quantileOfSorted_eq (xs : List ℚ) (q : ℚ) :
    quantileOfSorted xs q =
      xs.getD (qIndex xs q) 0 +
        (q * ((xs.length : ℚ) - 1) - (qIndex xs q : ℚ)) *
          (xs.getD (qIndex xs q + 1) (xs.getD (qIndex xs q) 0) -
            xs.getD (qIndex xs q) 0) := rfl

theorem getD_of_lt (xs : List ℚ) (d : ℚ) {k : ℕ} (hk : k < xs.length) :
    xs.getD k d = xs.getD k 0 := by
  rw [List.getD_eq_getElem?_getD, List.getD_eq_getElem?_getD,
    List.getElem?_eq_getElem hk]
  rfl

theorem sorted_getD_mono {xs : List ℚ} (hs : xs.Sorted (· ≤ ·)) {i j : ℕ}
    (hij : i ≤ j) (hj : j < xs.length) : xs.getD i 0 ≤ xs.getD j 0 := by
  rcases eq_or_lt_of_le hij with rfl | hlt
  · exact le_refl _
  · have hi : i < xs.length := lt_trans hlt hj
    rw [List.getD_eq_getElem?_getD, List.getElem?_eq_getElem hi,
      List.getD_eq_getElem?_getD, List.getElem?_eq_getElem hj]
    exact List.pairwise_iff_getElem.mp hs i j hi hj hlt

theorem getD_succ_ge {xs : List ℚ} (hs : xs.Sorted (· ≤ ·)) (k : ℕ) :
    xs.getD k 0 ≤ xs.getD (k + 1) (xs.getD k 0) := by
  by_cases hk1 : k + 1 < xs.length
  · rw [getD_of_lt xs _ hk1]
    exact sorted_getD_mono hs (Nat.le_succ k) hk1
  · rw [List.getD_eq_getElem?_getD xs (k + 1), List.getElem?_eq_none (not_lt.mp hk1)]
    simp

theorem getD_nonneg {xs : List ℚ} (h : ∀ v ∈ xs, 0 ≤ v) (k : ℕ) :
    0 ≤ xs.getD k 0 := by
  by_cases hk : k < xs.length
  · rw [List.getD_eq_getElem?_getD, List.getElem?_eq_getElem hk]
    exact h _ (List.getElem_mem hk)
  · rw [List.getD_eq_getElem?_getD, List.getElem?_eq_none (not_lt.mp hk)]
    exact le_refl 0

/-- The index cast to the rationals is the floor itself. -/
theorem qIndex_cast {xs : List ℚ} (hne : xs ≠ []) {q : ℚ} (hq0 : 0 ≤ q) :
    ((qIndex xs q : ℕ) : ℚ) = ((⌊q * ((xs.length : ℚ) - 1)⌋ : ℤ) : ℚ) := by
  have hn : 0 < xs.length := List.length_pos.mpr hne
  have hn1 : (1 : ℚ) ≤ (xs.length : ℚ) := by exact_mod_cast hn
  have hh0 : 0 ≤ q * ((xs.length : ℚ) - 1) := mul_nonneg hq0 (by linarith)
  have hfl : (0 : ℤ) ≤ ⌊q * ((xs.length : ℚ) - 1)⌋ := Int.floor_nonneg.mpr hh0
  unfold qIndex
  set m := ⌊q * ((xs.length : ℚ) - 1)⌋ with hm
  have hmn : (m.toNat : ℤ) = m := Int.toNat_of_nonneg hfl
  calc ((m.toNat : ℕ) : ℚ) = ((m.toNat : ℤ) : ℚ) := by push_cast; ring
    _ = ((m : ℤ) : ℚ) := by rw [hmn]

/-- The fractional interpolation weight `h - k` is in `[0, 1)`; the index
is at the floor position. -/
theorem qIndex_spec {xs : List ℚ} (hne : xs ≠ []) {q : ℚ} (hq0 : 0 ≤ q) :
    (qIndex xs q : ℚ) ≤ q * ((xs.length : ℚ) - 1) ∧
      q * ((xs.length : ℚ) - 1) < (qIndex xs q : ℚ) + 1 := by
  constructor
  · rw [qIndex_cast hne hq0]; exact Int.floor_le _
  · rw [qIndex_cast hne hq0]; exact Int.lt_floor_add_one _

theorem quantileOfSorted_ge {xs : List ℚ} (hs : xs.Sorted (· ≤ ·))
    (hne : xs ≠ []) {q : ℚ} (hq0 : 0 ≤ q) :
    xs.getD (qIndex xs q) 0 ≤ quantileOfSorted xs q := by
  rw [quantileOfSorted_eq]
  have hγ := (qIndex_spec hne hq0).1
  have hab := getD_succ_ge hs (qIndex xs q)
  nlinarith [hγ, hab]

theorem quantileOfSorted_le {xs : List ℚ} (hs : xs.Sorted (· ≤ ·))
    (hne : xs ≠ []) {q : ℚ} (hq0 : 0 ≤ q) :
    quantileOfSorted xs q ≤ xs.getD (qIndex xs q + 1) (xs.getD (qIndex xs q) 0) := by
  rw [quantileOfSorted_eq]
  have hγ := (qIndex_spec hne hq0).2
  have hab := getD_succ_ge hs (qIndex xs q)
  nlinarith [hγ, hab]

theorem qIndex_lt_length {xs : List ℚ} (hne : xs ≠ []) {q : ℚ}
    (hq0 : 0 ≤ q) (hq1 : q ≤ 1) : qIndex xs q < xs.length := by
  have hn : 0 < xs.length := List.length_pos.mpr hne
  have hn1 : (1 : ℚ) ≤ (xs.length : ℚ) := by exact_mod_cast hn
  have h1 : q * ((xs.length : ℚ) - 1) ≤ (xs.length : ℚ) - 1 := by
    nlinarith
  have h2 := (qIndex_spec hne hq0).1
  have : ((qIndex xs q : ℕ) : ℚ) < (xs.length : ℚ) := by linarith
  exact_mod_cast this

theorem quantileOfSorted_mono {xs : List ℚ} (hs : xs.Sorted (· ≤ ·))
    (hne : xs ≠ []) (p p' : ℚ) (h0 : 0 ≤ p) (hpp : p ≤ p') (h1 : p' ≤ 1) :
    quantileOfSorted xs p ≤ quantileOfSorted xs p' := by
  have h0' : 0 ≤ p' := le_trans h0 hpp
  have hn : 0 < xs.length := List.length_pos.mpr hne
  have hn1 : (1 : ℚ) ≤ (xs.length : ℚ) := by exact_mod_cast hn
  have hhh : p * ((xs.length : ℚ) - 1) ≤ p' * ((xs.length : ℚ) - 1) :=
    mul_le_mul_of_nonneg_right hpp (by linarith)
  have hk_le : qIndex xs p ≤ qIndex xs p' := by
    unfold qIndex
    exact Int.toNat_le_toNat (Int.floor_mono hhh)
  rcases eq_or_lt_of_le hk_le with heq | hlt
  · rw [quantileOfSorted_eq, quantileOfSorted_eq, ← heq]
    have hab := getD_succ_ge hs (qIndex xs p)
    have hγ1 := (qIndex_spec hne h0).1
    nlinarith [hhh, hab]
  · have hk' : qIndex xs p' < xs.length := qIndex_lt_length hne h0' h1
    have step1 : quantileOfSorted xs p ≤
        xs.getD (qIndex xs p + 1) (xs.getD (qIndex xs p) 0) :=
      quantileOfSorted_le hs hne h0
    have hk1 : qIndex xs p + 1 < xs.length := lt_of_le_of_lt hlt hk'
    have step2 : xs.getD (qIndex xs p + 1) (xs.getD (qIndex xs p) 0) ≤
        xs.getD (qIndex xs p') 0 := by
      rw [getD_of_lt xs _ hk1]
      exact sorted_getD_mono hs hlt hk'
    have step3 : xs.getD (qIndex xs p') 0 ≤ quantileOfSorted xs p' :=
      quantileOfSorted_ge hs hne h0'
    linarith

theorem quantileOfSorted_nonneg {xs : List ℚ} (hs : xs.Sorted (· ≤ ·))
    (hne : xs ≠ []) {q : ℚ} (hq0 : 0 ≤ q) (hall : ∀ v ∈ xs, 0 ≤ v) :
    0 ≤ quantileOfSorted xs q :=
  le_trans (getD_nonneg hall _) (quantileOfSorted_ge hs hne hq0)

theorem quantile_q1_le_q3 {col : List (Option ℚ)} {q1 q3 : ℚ}
    (h1 : quantile col (1/4) = some q1) (h3 : quantile col (3/4) = some q3) :
    q1 ≤ q3 := by
  unfold quantile at h1 h3
  by_cases he : (sortedVals col).isEmpty
  · rw [if_pos he] at h1; exact absurd h1 (by simp)
  · rw [if_neg he] at h1 h3
    have hne : sortedVals col ≠ [] := by
      intro hc; rw [hc] at he; exact he rfl
    have := quantileOfSorted_mono (sortedVals_sorted col) hne (1/4) (3/4)
      (by norm_num) (by norm_num) (by norm_num)
    rw [Option.some_inj.mp h1] at this
    rw [Option.some_inj.mp h3] at this
    exact this

theorem quantile_nonneg {col : List (Option ℚ)} {q r : ℚ}
    (hall : ∀ v : ℚ, some v ∈ col → 0 ≤ v)
    (h : quantile col q = some r) (hq0 : 0 ≤ q) : 0 ≤ r := by
  unfold quantile at h
  by_cases he : (sortedVals col).isEmpty
  · rw [if_pos he] at h; exact absurd h (by simp)
  · rw [if_neg he] at h
    have hne : sortedVals col ≠ [] := by
      intro hc; rw [hc] at he; exact he rfl
    rw [← Option.some_inj.mp h]
    exact quantileOfSorted_nonneg (sortedVals_sorted col) hne hq0
      (fun v hv => hall v (mem_sortedVals.mp hv))

/-! ### Bounding lemmas -/

theorem bound_column_bounds {col : List (Option ℚ)} {q1 q3 v : ℚ}
    (h1 : quantile col (1/4) = some q1) (h3 : quantile col (3/4) = some q3)
    (hv : some v ∈ bound_column col) :
    lower_bound q1 q3 ≤ v ∧ v ≤ upper_bound q1 q3 := by
  have hq13 := quantile_q1_le_q3 h1 h3
  have hlu : lower_bound q1 q3 ≤ upper_bound q1 q3 := by
    unfold lower_bound upper_bound; linarith
  unfold bound_column at hv
  split at hv
  next a b ha hb =>
    injection (h1.symm.trans ha) with hq1
    injection (h3.symm.trans hb) with hq3
    subst hq1; subst hq3
    obtain ⟨w, _, hw⟩ := mem_cap hv
    exact cap_mem_bounds hlu hw
  next hcontra =>
    exact absurd (hcontra q1 q3 h1 h3) (fun hfalse => hfalse)

theorem bound_column_nonneg {col : List (Option ℚ)}
    (hall : ∀ v : ℚ, some v ∈ col → 0 ≤ v) {v : ℚ}
    (hv : some v ∈ bound_column col) : 0 ≤ v := by
  unfold bound_column at hv
  split at hv
  next a b ha hb =>
    obtain ⟨w, hwcol, hw⟩ := mem_cap hv
    have hq3 : 0 ≤ b := quantile_nonneg hall hb (by norm_num)
    have hq13 := quantile_q1_le_q3 ha hb
    have hu : 0 ≤ upper_bound a b := by unfold upper_bound; linarith
    exact cap_nonneg (hall w hwcol) hu hw
  next _ =>
    exact hall v hv

theorem bound_column_missing {col : List (Option ℚ)} {i : ℕ}
    (h : col[i]? = some none) : (bound_column col)[i]? = some none := by
  unfold bound_column
  split
  next a b _ _ =>
    unfold where_upper where_lower
    rw [List.getElem?_map, List.getElem?_map, h]
    rfl
  next _ => exact h

theorem cap_point_idem (l u w : ℚ) :
    capHigh u (capLow l (capHigh u (capLow l w))) = capHigh u (capLow l w) := by
  unfold capHigh capLow
  split_ifs <;> linarith

theorem cap_point_collapse (u w : ℚ) : capHigh u (capLow u w) = u := by
  unfold capHigh capLow
  split_ifs <;> linarith

/-- Capping with fixed fences is idempotent, whatever the fences are. -/
theorem cap_column_idempotent (l u : ℚ) (col : List (Option ℚ)) :
    where_upper u (where_lower l (where_upper u (where_lower l col))) =
      where_upper u (where_lower l col) := by
  unfold where_upper where_lower
  simp only [List.map_map]
  apply List.map_congr_left
  intro c _
  cases c with
  | none => rfl
  | some w => simp [Function.comp, cap_point_idem]

/-- When both fences coincide at `c`, capping replaces every non-missing
value by `c`. -/
theorem bound_column_collapse {col : List (Option ℚ)} {c : ℚ}
    (h1 : quantile col (1/4) = some c) (h3 : quantile col (3/4) = some c) :
    bound_column col = col.map (Option.map (fun _ => c)) := by
  unfold bound_column
  split
  next a b ha hb =>
    injection (h1.symm.trans ha) with hq1
    injection (h3.symm.trans hb) with hq3
    subst hq1; subst hq3
    have hl : lower_bound c c = c := by unfold lower_bound; ring
    have hu : upper_bound c c = c := by unfold upper_bound; ring
    rw [hl, hu]
    unfold where_upper where_lower
    rw [List.map_map]
    apply List.map_congr_left
    intro x _
    cases x with
    | none => rfl
    | some w => simp [Function.comp, cap_point_collapse]
  next hcontra =>
    exact absurd (hcontra c c h1 h3) (fun hfalse => hfalse)

/-! ### Stage-level lemmas -/

theorem mapE_ok_forall {f : α → Except ε β} :
    ∀ {xs : List α} {l : List β}, mapE f xs = .ok l →
      ∀ x ∈ xs, ∃ b, f x = .ok b := by
  intro xs
  induction xs with
  | nil => intro l _ x hx; simp at hx
  | cons y ys ih =>
    intro l h x hx
    rw [mapE] at h
    cases hy : f y with
    | error e => rw [hy] at h; simp at h
    | ok b =>
      rw [hy] at h
      cases hys : mapE f ys with
      | error e => rw [hys] at h; simp [Except.map] at h
      | ok bs =>
        rcases List.mem_cons.mp hx with rfl | hmem
        · exact ⟨b, hy⟩
        · exact ih hys x hmem

theorem every_field_mem_numeric_columns (f : NumField) : f ∈ numeric_columns := by
  cases f <;> simp [numeric_columns]

theorem stage3_table (t : Table (Option ℚ)) :
    (stage3 t).1 = applyNum clamp_column t := rfl

theorem msgs_foldr_absent {t : Table (Option ℚ)} {f : NumField}
    (h : getCol t f = none) :
    ∀ {cols : List NumField}, f ∈ cols →
      notFoundMsg f ∈ cols.foldr
        (fun g acc =>
          (match getCol t g with
            | some col => if anyNegative col then [negMsg g] else []
            | none => [notFoundMsg g]) ++ acc) [] := by
  intro cols
  induction cols with
  | nil => intro hf; simp at hf
  | cons c cs ih =>
    intro hf
    rw [List.foldr_cons]
    rcases List.mem_cons.mp hf with rfl | hmem
    · rw [h]
      simp
    · exact List.mem_append.mpr (Or.inr (ih hmem))

theorem stage3_msgs_absent {t : Table (Option ℚ)} {f : NumField}
    (h : getCol t f = none) : notFoundMsg f ∈ (stage3 t).2 :=
  msgs_foldr_absent h (every_field_mem_numeric_columns f)

theorem stage4_ok_shape {t t' : Table (Option ℚ)} (h : stage4 t = .ok t') :
    ∃ L, mapE (reconcile_row t) (List.range (n_rows t)) = .ok L ∧
      t' = { t with profit := some L } := by
  unfold stage4 at h
  cases hm : mapE (reconcile_row t) (List.range (n_rows t)) with
  | error e => rw [hm] at h; simp [Except.map] at h
  | ok L =>
    rw [hm] at h
    simp [Except.map] at h
    exact ⟨L, rfl, h.symm⟩

theorem stage4_preserves {t t' : Table (Option ℚ)} (h : stage4 t = .ok t')
    {f : NumField} (hf : f ≠ .profit) : getCol t' f = getCol t f := by
  obtain ⟨L, _, rfl⟩ := stage4_ok_shape h
  cases f <;> first | rfl | exact absurd rfl hf

theorem stage5_ok_shape {t t' : Table (Option ℚ)} (h : stage5 t = .ok t') :
    t' = applyNum bound_column t := by
  unfold stage5 at h
  cases hd : detect_outliers t numeric_columns with
  | error e => rw [hd] at h; simp [Except.map] at h
  | ok m => rw [hd] at h; simp [Except.map] at h; exact h.symm

theorem stage5_absent {t : Table (Option ℚ)} {f : NumField}
    (h : getCol t f = none) : exceptOk (stage5 t) = false := by
  cases hs : stage5 t with
  | error e => rfl
  | ok t' =>
    exfalso
    unfold stage5 at hs
    cases hd : detect_outliers t numeric_columns with
    | error e => rw [hd] at hs; simp [Except.map] at hs
    | ok m =>
      unfold detect_outliers at hd
      obtain ⟨b, hb⟩ := mapE_ok_forall hd f (every_field_mem_numeric_columns f)
      rw [h] at hb
      simp at hb

/-! ### Coercion lemmas: the textual cleanup deletes every hyphen, so no
parsed string is negative. -/

theorem no_hyphen_cleanedChars (l : List Char) : '-' ∉ cleanedChars l := by
  unfold cleanedChars deleteChar
  intro h
  have hp := List.of_mem_filter h
  simp at hp

theorem mem_of_mem_trimSpaces {c : Char} {l : List Char}
    (h : c ∈ trimSpaces l) : c ∈ l := by
  unfold trimSpaces at h
  rw [List.mem_reverse] at h
  have h2 := List.Sublist.mem h (List.dropWhile_sublist _)
  rw [List.mem_reverse] at h2
  exact List.Sublist.mem h2 (List.dropWhile_sublist _)

theorem parseUnsigned_nonneg {l : List Char} {q : ℚ}
    (h : parseUnsigned l = some q) : 0 ≤ q := by
  simp only [parseUnsigned] at h
  split at h
  next rest₂ =>
    split_ifs at h
    split at h
    next => injection h with h; rw [← h]; positivity
    next es =>
      rw [Option.map_eq_some'] at h
      obtain ⟨e, _, he⟩ := h
      rw [← he]; positivity
    next es =>
      rw [Option.map_eq_some'] at h
      obtain ⟨e, _, he⟩ := h
      rw [← he]; positivity
    next => exact absurd h (by simp)
  next =>
    split_ifs at h
    injection h with h; rw [← h]; positivity
  next es =>
    split_ifs at h
    rw [Option.map_eq_some'] at h
    obtain ⟨e, _, he⟩ := h
    rw [← he]; positivity
  next es =>
    split_ifs at h
    rw [Option.map_eq_some'] at h
    obtain ⟨e, _, he⟩ := h
    rw [← he]; positivity
  next => exact absurd h (by simp)

theorem parseRat_nonneg {s : String} (hs : '-' ∉ s.toList) {q : ℚ}
    (h : parseRat s = some q) : 0 ≤ q := by
  unfold parseRat at h
  split at h
  next rest heq =>
    have hmem : '-' ∈ trimSpaces s.toList := by
      rw [heq]; exact List.mem_cons_self _ _
    exact absurd (mem_of_mem_trimSpaces hmem) hs
  all_goals exact parseUnsigned_nonneg h

theorem coerceCell_str_nonneg {s : String} {q : ℚ}
    (h : coerceCell (.str s) = some q) : 0 ≤ q := by
  simp only [coerceCell, replaceCell] at h
  split_ifs at h with hsent
  · exact absurd h (by simp [toNumericCell])
  · simp only [toNumericCell] at h
    have hnh : '-' ∉ (String.mk (cleanedChars s.toList)).toList :=
      no_hyphen_cleanedChars s.toList
    exact parseRat_nonneg hnh h

/-! ### Row-count lemmas -/

theorem optRows_map {o : Option (List α)} {g : List α → List β} {n : ℕ}
    (hg : ∀ l, (g l).length = l.length) (h : optRows o n = true) :
    optRows (o.map g) n = true := by
  cases o with
  | none => rfl
  | some l =>
    simp only [Option.map_some', optRows, beq_iff_eq] at h ⊢
    rw [hg]
    exact h

theorem hasRows_applyNum {t : Table α} {g : List α → List β} {n : ℕ}
    (hg : ∀ l, (g l).length = l.length) (h : hasRows t n = true) :
    hasRows (applyNum g t) n = true := by
  simp only [hasRows, Bool.and_eq_true] at h ⊢
  obtain ⟨⟨⟨⟨⟨⟨⟨⟨⟨⟨⟨⟨⟨⟨h1, h2⟩, h3⟩, h4⟩, h5⟩, h6⟩, h7⟩, h8⟩, h9⟩, h10⟩,
    h11⟩, h12⟩, h13⟩, h14⟩, h15⟩ := h
  exact ⟨⟨⟨⟨⟨⟨⟨⟨⟨⟨⟨⟨⟨⟨h1, h2⟩, h3⟩, h4⟩, h5⟩, h6⟩, h7⟩,
    optRows_map hg h8⟩, optRows_map hg h9⟩, optRows_map hg h10⟩,
    optRows_map hg h11⟩, optRows_map hg h12⟩, optRows_map hg h13⟩,
    optRows_map hg h14⟩, optRows_map hg h15⟩

theorem stage1_hasRows {pd : Cell → Option String} {r : RawTable} {n : ℕ}
    {t : Table Cell} (hr : rawHasRows r n = true) (h : stage1 pd r = .ok t) :
    hasRows t n = true := by
  unfold stage1 at h
  cases hy : mapE year_to_int r.year with
  | error e => rw [hy] at h; simp [Bind.bind, Except.bind] at h
  | ok ys =>
    rw [hy] at h
    cases hm : mapE month_to_int r.monthNumber with
    | error e => rw [hm] at h; simp [Bind.bind, Except.bind] at h
    | ok ms =>
      rw [hm] at h
      simp only [Bind.bind, Except.bind] at h
      injection h with h
      subst h
      simp only [rawHasRows, Bool.and_eq_true] at hr
      obtain ⟨⟨⟨⟨⟨⟨⟨⟨⟨⟨⟨⟨⟨⟨h1, h2⟩, h3⟩, h4⟩, h5⟩, h6⟩, h7⟩, h8⟩, h9⟩, h10⟩,
        h11⟩, h12⟩, h13⟩, h14⟩, h15⟩ := hr
      simp only [hasRows, Bool.and_eq_true]
      refine ⟨⟨⟨⟨⟨⟨⟨⟨⟨⟨⟨⟨⟨⟨?_, ?_⟩, ?_⟩, h4⟩, h5⟩, h6⟩, h7⟩, h8⟩, h9⟩, h10⟩,
        h11⟩, h12⟩, h13⟩, h14⟩, h15⟩
      · simp only [beq_iff_eq] at h1 ⊢
        rw [mapE_ok_length hy]; exact h1
      · simp only [beq_iff_eq] at h2 ⊢
        rw [mapE_ok_length hm]; exact h2
      · simp only [beq_iff_eq] at h3 ⊢
        rw [List.length_map]; exact h3

theorem stage4_hasRows {t t' : Table (Option ℚ)} {n : ℕ}
    (ht : hasRows t n = true) (h : stage4 t = .ok t') :
    hasRows t' n = true := by
  obtain ⟨L, hL, rfl⟩ := stage4_ok_shape h
  have hlen : L.length = n := by
    rw [mapE_ok_length hL, List.length_range]
    simp only [hasRows, Bool.and_eq_true] at ht
    exact beq_iff_eq.mp ht.1.1.1.1.1.1.1.1.1.1.1.1.1.1
  simp only [hasRows, Bool.and_eq_true] at ht ⊢
  obtain ⟨⟨⟨⟨⟨⟨⟨⟨⟨⟨⟨⟨⟨⟨h1, h2⟩, h3⟩, h4⟩, h5⟩, h6⟩, h7⟩, h8⟩, h9⟩, h10⟩,
    h11⟩, h12⟩, h13⟩, h14⟩, h15⟩ := ht
  exact ⟨⟨⟨⟨⟨⟨⟨⟨⟨⟨⟨⟨⟨⟨h1, h2⟩, h3⟩, h4⟩, h5⟩, h6⟩, h7⟩, h8⟩, h9⟩, h10⟩,
    h11⟩, h12⟩, h13⟩, h14⟩, by simp [optRows, hlen]⟩

/-! ### Pipeline inversion -/

theorem pipelineRun_ok {pd : Cell → Option String} {r : RawTable}
    {t5 : Table (Option ℚ)} {msgs : List String}
    (h : pipelineRun pd r = .ok (t5, msgs)) :
    ∃ t1 t4, stage1 pd r = .ok t1 ∧ stage4 (stage3 (stage2 t1)).1 = .ok t4 ∧
      stage5 t4 = .ok t5 ∧ msgs = (stage3 (stage2 t1)).2 := by
  unfold pipelineRun at h
  cases h1 : stage1 pd r with
  | error e => rw [h1] at h; simp [Bind.bind, Except.bind] at h
  | ok t1 =>
    rw [h1] at h
    simp only [Bind.bind, Except.bind] at h
    cases h4 : stage4 (stage3 (stage2 t1)).1 with
    | error e => rw [h4] at h; simp at h
    | ok t4 =>
      rw [h4] at h
      dsimp only at h
      cases h5 : stage5 t4 with
      | error e => rw [h5] at h; simp at h
      | ok t5' =>
        rw [h5] at h
        dsimp only at h
        injection h with h
        injection h with hfst hsnd
        exact ⟨t1, t4, rfl, h4, by rw [← hfst]; exact h5, hsnd.symm⟩

/-! ### Concrete tables -/

/-- A one-row input whose Sales is 0, COGS is 10 and Profit is the NaN
sentinel: the reconciler fills Profit with `0 - 10 = -10`. -/
def rawNeg : RawTable :=
  ⟨[.num 2013], [.num 1], [.str "d"], ["January"], ["Government"], ["Canada"],
   ["Carretera"], some [.num 1], some [.num 1], some [.num 1], some [.num 1],
   some [.num 0], some [.num 0], some [.num 10], some [.na]⟩

/-- `rawNeg` after stage 1. -/
def t1Neg : Table Cell :=
  ⟨[2013], [1], [none], ["January"], ["Government"], ["Canada"], ["Carretera"],
   some [.num 1], some [.num 1], some [.num 1], some [.num 1],
   some [.num 0], some [.num 0], some [.num 10], some [.na]⟩

/-- `rawNeg` after stages 2 and 3 (nothing negative yet, Profit missing). -/
def tNeg2 : Table (Option ℚ) :=
  ⟨[2013], [1], [none], ["January"], ["Government"], ["Canada"], ["Carretera"],
   some [some 1], some [some 1], some [some 1], some [some 1],
   some [some 0], some [some 0], some [some 10], some [none]⟩

/-- `rawNeg` after stages 4 and 5: the terminal table, with Profit `-10`. -/
def tNegFinal : Table (Option ℚ) :=
  ⟨[2013], [1], [none], ["January"], ["Government"], ["Canada"], ["Carretera"],
   some [some 1], some [some 1], some [some 1], some [some 1],
   some [some 0], some [some 0], some [some 10], some [some (-10)]⟩

/-- A one-row table whose Units Sold column is absent from the schema. -/
def tNoUnits : Table (Option ℚ) :=
  ⟨[2013], [1], [none], ["January"], ["Government"], ["Canada"], ["Carretera"],
   none, some [some 1], some [some 1], some [some 1],
   some [some 0], some [some 5], some [some 2], some [some 3]⟩

/-- The same schema gap one stage earlier, with raw cells. -/
def tcNoUnits : Table Cell :=
  ⟨[2013], [1], [none], ["January"], ["Government"], ["Canada"], ["Carretera"],
   none, some [.num 1], some [.num 1], some [.num 1],
   some [.num 0], some [.num 5], some [.num 2], some [.num 3]⟩

/-- The column `[0, 16, 16, 16]`: Q1 = 12, Q3 = 16, fences `[6, 22]`. -/
def exCol4 : List (Option ℚ) := [some 0, some 16, some 16, some 16]

/-- A three-row table for the Profit reconciler: row 0 has Profit present
(7, inconsistent with Sales - COGS), row 1 has Profit missing with Sales
1000 and COGS 400, row 2 has Profit missing with Sales itself missing. -/
def tC2 : Table (Option ℚ) :=
  ⟨[2013, 2013, 2013], [1, 2, 3], [none, none, none], ["J", "F", "M"],
   ["G", "G", "G"], ["CA", "CA", "CA"], ["P", "P", "P"],
   some [some 1, some 1, some 1], some [some 1, some 1, some 1],
   some [some 1, some 1, some 1], some [some 1, some 1, some 1],
   some [some 0, some 0, some 0], some [some 5, some 1000, none],
   some [some 2, some 400, some 1], some [some 7, none, none]⟩

/-- `tC2` after the Profit reconciler. -/
def tC2out : Table (Option ℚ) :=
  ⟨[2013, 2013, 2013], [1, 2, 3], [none, none, none], ["J", "F", "M"],
   ["G", "G", "G"], ["CA", "CA", "CA"], ["P", "P", "P"],
   some [some 1, some 1, some 1], some [some 1, some 1, some 1],
   some [some 1, some 1, some 1], some [some 1, some 1, some 1],
   some [some 0, some 0, some 0], some [some 5, some 1000, none],
   some [some 2, some 400, some 1], some [some 7, some 600, none]⟩

/-- A column-2 table for the Non-Negativity Enforcer: Sales holds a
negative value and a missing value. -/
def tC7 : Table (Option ℚ) :=
  ⟨[2013, 2013], [1, 2], [none, none], ["J", "F"], ["G", "G"], ["CA", "CA"],
   ["P", "P"], some [some 1, some 1], some [some 1, some 1],
   some [some 1, some 1], some [some 1, some 1], some [some 0, some 0],
   some [some (-3), none], some [some 2, some 2], some [some 3, some 3]⟩

/-! ### Claims -/

set_option maxRecDepth 100000

/-- Claim C1 counterexample: running all five stages on `rawNeg` succeeds
and the terminal Profit value is `-10`, a negative number — the claimed
post-pipeline invariant "no field, including Profit as recomputed by the
reconciler, ever holds a negative value" fails at this input. -/
theorem C1_counterexample :
    pipelineRun (fun _ => none) rawNeg = .ok (tNegFinal, []) ∧
      getCol tNegFinal .profit = some [some (-10)] ∧ (-10 : ℚ) < 0 := by
  refine ⟨?_, ?_, by norm_num⟩
  · with_unfolding_all decide
  · with_unfolding_all decide

/-- Claim C1 (amended): after all five stages have run, every value of
every designated numeric field other than Profit is either a finite
non-negative number or missing; Profit, when recomputed by the reconciler
as `Sales - COGS` after the clamping stage, can be and remain negative. -/
theorem C1_theorem {pd : Cell → Option String} {r : RawTable}
    {t5 : Table (Option ℚ)} {msgs : List String}
    (h : pipelineRun pd r = .ok (t5, msgs)) {f : NumField} (hf : f ≠ .profit)
    {col : List (Option ℚ)} (hcol : getCol t5 f = some col)
    {v : ℚ} (hv : some v ∈ col) : 0 ≤ v := by
  obtain ⟨t1, t4, h1, h4, h5, hm⟩ := pipelineRun_ok h
  rw [stage5_ok_shape h5, getCol_applyNum] at hcol
  cases hc4 : getCol t4 f with
  | none => rw [hc4] at hcol; exact absurd hcol (by simp)
  | some col4 =>
    rw [hc4, Option.map_some'] at hcol
    injection hcol with hcol
    rw [stage4_preserves h4 hf, stage3_table, getCol_applyNum] at hc4
    cases hc2 : getCol (stage2 t1) f with
    | none => rw [hc2] at hc4; exact absurd hc4 (by simp)
    | some col2 =>
      rw [hc2, Option.map_some'] at hc4
      injection hc4 with hc4
      rw [← hcol] at hv
      refine bound_column_nonneg ?_ hv
      intro w hw
      rw [← hc4] at hw
      exact clamp_column_nonneg hw

/-- Claim C1 witness: the amended theorem applied to the concrete run on
`rawNeg` at the Sales column. -/
theorem C1_witness : (0 : ℚ) ≤ 0 :=
  @C1_theorem (fun _ => none) rawNeg tNegFinal [] (by with_unfolding_all decide)
    .sales (by decide) [some 0] (by with_unfolding_all decide) 0
    (by with_unfolding_all decide)

/-- Claim C2: the Profit reconciler leaves present Profit values exactly as
they were (even if inconsistent with `Sales - COGS`), recomputes a missing
Profit from the current (post-coercion, post-clamping) Sales and COGS, and
leaves Profit missing when Sales or COGS is itself missing. -/
theorem C2_theorem {t t' : Table (Option ℚ)} {pc sc cc : List (Option ℚ)}
    (hp : t.profit = some pc) (hs : t.sales = some sc) (hc : t.cogs = some cc)
    (hlen : pc.length = n_rows t) (h : stage4 t = .ok t') :
    ∃ L, t'.profit = some L ∧
      ∀ i : ℕ,
        (∀ p : ℚ, pc[i]? = some (some p) → L[i]? = some (some p)) ∧
        (pc[i]? = some none → ∀ a b : ℚ, sc[i]? = some (some a) →
          cc[i]? = some (some b) → L[i]? = some (some (a - b))) ∧
        (pc[i]? = some none → (sc[i]? = some none ∨ cc[i]? = some none) →
          L[i]? = some none) := by
  obtain ⟨L, hL, rfl⟩ := stage4_ok_shape h
  refine ⟨L, rfl, ?_⟩
  intro i
  have hrange : ∀ x, pc[i]? = some x →
      ∃ b, L[i]? = some b ∧ reconcile_row t i = .ok b := by
    intro x hx
    have hilen : i < pc.length := by
      by_contra hge
      rw [List.getElem?_eq_none (le_of_not_lt hge)] at hx
      exact absurd hx (by simp)
    have hi : i < n_rows t := hlen ▸ hilen
    exact mapE_ok_getElem hL
      (show (List.range (n_rows t))[i]? = some i by rw [List.getElem?_range hi])
  refine ⟨?_, ?_, ?_⟩
  · intro p hpi
    obtain ⟨b, hb, hrec⟩ := hrange _ hpi
    unfold reconcile_row at hrec
    rw [hp] at hrec
    dsimp only at hrec
    rw [hpi] at hrec
    dsimp only at hrec
    injection hrec with hrec
    rw [hb, ← hrec]
  · intro hpi a b' hsi hci
    obtain ⟨b, hb, hrec⟩ := hrange _ hpi
    unfold reconcile_row at hrec
    rw [hp] at hrec
    dsimp only at hrec
    rw [hpi] at hrec
    dsimp only at hrec
    rw [hs, hc] at hrec
    dsimp only at hrec
    rw [hsi, hci] at hrec
    dsimp only at hrec
    injection hrec with hrec
    rw [hb, ← hrec]
    rfl
  · intro hpi hmiss
    obtain ⟨b, hb, hrec⟩ := hrange _ hpi
    unfold reconcile_row at hrec
    rw [hp] at hrec
    dsimp only at hrec
    rw [hpi] at hrec
    dsimp only at hrec
    rw [hs, hc] at hrec
    dsimp only at hrec
    rcases hmiss with hm | hm
    · rw [hm] at hrec
      cases hcc : cc[i]? with
      | none => rw [hcc] at hrec; dsimp only at hrec; exact absurd hrec (by simp)
      | some y =>
        rw [hcc] at hrec
        dsimp only at hrec
        injection hrec with hrec
        rw [hb, ← hrec]
        rfl
    · rw [hm] at hrec
      cases hsc : sc[i]? with
      | none => rw [hsc] at hrec; dsimp only at hrec; exact absurd hrec (by simp)
      | some y =>
        rw [hsc] at hrec
        dsimp only at hrec
        injection hrec with hrec
        rw [hb, ← hrec]
        cases y <;> rfl

/-- Claim C2 witness: the reconciler contract applied to the concrete
three-row table `tC2`. -/
theorem C2_witness :
    ∃ L, tC2out.profit = some L ∧
      ∀ i : ℕ,
        (∀ p : ℚ, ([some 7, none, none] : List (Option ℚ))[i]? = some (some p) →
          L[i]? = some (some p)) ∧
        (([some 7, none, none] : List (Option ℚ))[i]? = some none →
          ∀ a b : ℚ, ([some 5, some 1000, none] : List (Option ℚ))[i]? = some (some a) →
          ([some 2, some 400, some 1] : List (Option ℚ))[i]? = some (some b) →
          L[i]? = some (some (a - b))) ∧
        (([some 7, none, none] : List (Option ℚ))[i]? = some none →
          (([some 5, some 1000, none] : List (Option ℚ))[i]? = some none ∨
           ([some 2, some 400, some 1] : List (Option ℚ))[i]? = some none) →
          L[i]? = some none) :=
  @C2_theorem tC2 tC2out [some 7, none, none] [some 5, some 1000, none]
    [some 2, some 400, some 1] (by with_unfolding_all decide)
    (by with_unfolding_all decide) (by with_unfolding_all decide)
    (by with_unfolding_all decide) (by with_unfolding_all decide)

/-- Claim C3 counterexample: with the Units Sold column absent, the
non-negativity stage does print the non-fatal diagnostic, but the pipeline
does not complete the remaining stages — the outlier stage raises KeyError
on the absent column. -/
theorem C3_counterexample :
    notFoundMsg .unitsSold ∈ (stage3 tNoUnits).2 ∧
      exceptOk ((stage4 (stage3 tNoUnits).1).bind stage5) = false := by
  constructor
  · with_unfolding_all decide
  · with_unfolding_all decide

/-- Claim C3 (amended): an absent designated column is reported as a
non-fatal diagnostic and is skipped by the numeric-coercion and
non-negativity stages, but the outlier stage accesses every designated
column unconditionally, so it fails (KeyError) whenever one is absent and
the pipeline does not complete. -/
theorem C3_theorem :
    (∀ (tc : Table Cell) (f : NumField), getCol tc f = none →
      getCol (stage2 tc) f = none ∧
        notFoundMsg f ∈ (stage3 (stage2 tc)).2 ∧
        getCol (stage3 (stage2 tc)).1 f = none) ∧
    (∀ (t : Table (Option ℚ)) (f : NumField), getCol t f = none →
      exceptOk (stage5 t) = false) := by
  constructor
  · intro tc f h
    have h2 : getCol (stage2 tc) f = none := by
      unfold stage2; rw [getCol_applyNum, h]; rfl
    refine ⟨h2, stage3_msgs_absent h2, ?_⟩
    rw [stage3_table, getCol_applyNum, h2]
    rfl
  · intro t f h
    exact stage5_absent h

/-- Claim C3 witness: both parts of the amended statement at the concrete
tables lacking Units Sold. -/
theorem C3_witness :
    (getCol (stage2 tcNoUnits) .unitsSold = none ∧
      notFoundMsg .unitsSold ∈ (stage3 (stage2 tcNoUnits)).2 ∧
      getCol (stage3 (stage2 tcNoUnits)).1 .unitsSold = none) ∧
    exceptOk (stage5 tNoUnits) = false :=
  ⟨C3_theorem.1 tcNoUnits .unitsSold (by with_unfolding_all decide),
   C3_theorem.2 tNoUnits .unitsSold (by with_unfolding_all decide)⟩

/-- Claim C4 counterexample: one pass of the Outlier Bounder on
`[0, 16, 16, 16]` caps 0 to the lower fence 6; a second pass, recomputing
the quantiles from the capped values, moves 6 further to 39/4 — the fixed
point is not reached in one pass. -/
theorem C4_counterexample :
    bound_column exCol4 = [some 6, some 16, some 16, some 16] ∧
      bound_column (bound_column exCol4) =
        [some (39/4), some 16, some 16, some 16] ∧
      bound_column (bound_column exCol4) ≠ bound_column exCol4 := by
  refine ⟨?_, ?_, ?_⟩ <;> with_unfolding_all decide

/-- Claim C4 (amended): applying the capping passes a second time with the
same fences changes no value — capping is idempotent for fixed fences; it
is only the recomputation of Q1/Q3/IQR from the already-capped values that
can move values again, so one pass of the full Outlier Bounder need not
reach a fixed point. -/
theorem C4_theorem (l u : ℚ) (col : List (Option ℚ)) :
    where_upper u (where_lower l (where_upper u (where_lower l col))) =
      where_upper u (where_lower l col) :=
  cap_column_idempotent l u col

/-- Claim C5 counterexample: after the Outlier Bounder runs on
`[0, 16, 16, 16]` the value 6 is present, yet the fences recomputed from
the final (post-capping) data have lower bound 39/4 > 6 — containment with
respect to the final data fails. -/
theorem C5_counterexample :
    some (6 : ℚ) ∈ bound_column exCol4 ∧
      quantile (bound_column exCol4) (1/4) = some (27/2) ∧
      quantile (bound_column exCol4) (3/4) = some 16 ∧
      (6 : ℚ) < lower_bound (27/2) 16 := by
  refine ⟨?_, ?_, ?_, ?_⟩
  · with_unfolding_all decide
  · with_unfolding_all decide
  · with_unfolding_all decide
  · unfold lower_bound; norm_num

/-- Elements of a bounded column force the quantiles of the original
column to exist. -/
theorem bound_mem_has_some {col : List (Option ℚ)} {v : ℚ}
    (hv : some v ∈ bound_column col) : ∃ w : ℚ, some w ∈ col := by
  unfold bound_column at hv
  split at hv
  next a b ha hb =>
    obtain ⟨w, hw, _⟩ := mem_cap hv
    exact ⟨w, hw⟩
  next _ => exact ⟨v, hv⟩

theorem quantile_isSome_of_mem {col : List (Option ℚ)} {w : ℚ}
    (hw : some w ∈ col) (q : ℚ) : ∃ r, quantile col q = some r := by
  unfold quantile
  have hne : ¬ (sortedVals col).isEmpty = true := by
    intro hc
    rw [List.isEmpty_iff] at hc
    have hmem := mem_sortedVals.mpr hw
    rw [hc] at hmem
    exact absurd hmem (List.not_mem_nil w)
  rw [if_neg hne]
  exact ⟨_, rfl⟩

/-- Claim C5 (amended): after the Outlier Bounder runs, every non-missing
value lies within `[Q1 - 1.5 IQR, Q3 + 1.5 IQR]` where Q1 and Q3 are the
linear-interpolation quartiles of the column as it stood entering the
stage (pre-capping) — not of the final post-capping values. -/
theorem C5_theorem {t t' : Table (Option ℚ)} (h : stage5 t = .ok t')
    {f : NumField} {col col' : List (Option ℚ)}
    (hcol : getCol t f = some col) (hcol' : getCol t' f = some col')
    {v : ℚ} (hv : some v ∈ col') :
    ∃ q1 q3, quantile col (1/4) = some q1 ∧ quantile col (3/4) = some q3 ∧
      lower_bound q1 q3 ≤ v ∧ v ≤ upper_bound q1 q3 := by
  rw [stage5_ok_shape h, getCol_applyNum, hcol, Option.map_some'] at hcol'
  injection hcol' with hcol'
  rw [← hcol'] at hv
  obtain ⟨w, hw⟩ := bound_mem_has_some hv
  obtain ⟨q1, hq1⟩ := quantile_isSome_of_mem hw (1/4)
  obtain ⟨q3, hq3⟩ := quantile_isSome_of_mem hw (3/4)
  obtain ⟨hl, hu⟩ := bound_column_bounds hq1 hq3 hv
  exact ⟨q1, q3, hq1, hq3, hl, hu⟩

/-- Claim C5 witness: the containment statement at the one-row table
`tNegFinal` (COGS column, value 10, degenerate fences [10, 10]). -/
theorem C5_witness :
    ∃ q1 q3, quantile [some (10 : ℚ)] (1/4) = some q1 ∧
      quantile [some (10 : ℚ)] (3/4) = some q3 ∧
      lower_bound q1 q3 ≤ 10 ∧ (10 : ℚ) ≤ upper_bound q1 q3 :=
  @C5_theorem tNegFinal tNegFinal (by with_unfolding_all decide) .cogs
    [some 10] [some 10] (by with_unfolding_all decide)
    (by with_unfolding_all decide) 10 (by with_unfolding_all decide)

/-- Claim C6: a textual value "-5" has its hyphen deleted by the cleanup
rules and coerces to the positive number 5; in general every string cell
that coerces to a number at all coerces to a non-negative one, so no
negative numeric literal in source text survives to the Non-Negativity
Enforcer. -/
theorem C6_theorem :
    coerceCell (.str "-5") = some 5 ∧
      ∀ (s : String) (q : ℚ), coerceCell (.str s) = some q → 0 ≤ q := by
  constructor
  · with_unfolding_all decide
  · intro s q h
    exact coerceCell_str_nonneg h

/-- Claim C6 witness: the general non-negativity applied at "-5" itself,
whose coercion is the concrete first conjunct. -/
theorem C6_witness : (0 : ℚ) ≤ 5 :=
  C6_theorem.2 "-5" 5 C6_theorem.1

/-- Claim C7: the Non-Negativity Enforcer preserves missingness — a row
missing in a designated column before the stage is still missing after it,
also when the column holds negatives and the whole-field clamp runs. -/
theorem C7_theorem {t : Table (Option ℚ)} {f : NumField}
    {col col' : List (Option ℚ)} (hcol : getCol t f = some col)
    (hcol' : getCol (stage3 t).1 f = some col') {i : ℕ}
    (hmiss : col[i]? = some none) : col'[i]? = some none := by
  rw [stage3_table, getCol_applyNum, hcol, Option.map_some'] at hcol'
  injection hcol' with hcol'
  rw [← hcol']
  exact clamp_column_missing hmiss

/-- Claim C7 witness: the missing Sales cell of `tC7` survives the clamp
that corrects the negative cell next to it. -/
theorem C7_witness : ([some 0, none] : List (Option ℚ))[1]? = some none :=
  @C7_theorem tC7 .sales [some (-3), none] [some 0, none]
    (by with_unfolding_all decide) (by with_unfolding_all decide) 1
    (by with_unfolding_all decide)

/-- Claim C8: each of the five stages maps a table of n rows to a table of
exactly n rows — schema normalization, coercion, clamping, reconciliation
and bounding only alter cell values, never the row count. -/
theorem C8_theorem :
    (∀ (pd : Cell → Option String) (r : RawTable) (n : ℕ) (t : Table Cell),
      rawHasRows r n = true → stage1 pd r = .ok t → hasRows t n = true) ∧
    (∀ (t : Table Cell) (n : ℕ), hasRows t n = true →
      hasRows (stage2 t) n = true) ∧
    (∀ (t : Table (Option ℚ)) (n : ℕ), hasRows t n = true →
      hasRows (stage3 t).1 n = true) ∧
    (∀ (t t4 : Table (Option ℚ)) (n : ℕ), hasRows t n = true →
      stage4 t = .ok t4 → hasRows t4 n = true) ∧
    (∀ (t t5 : Table (Option ℚ)) (n : ℕ), hasRows t n = true →
      stage5 t = .ok t5 → hasRows t5 n = true) := by
  refine ⟨?_, ?_, ?_, ?_, ?_⟩
  · intro pd r n t hr h
    exact stage1_hasRows hr h
  · intro t n h
    exact hasRows_applyNum (fun l => by simp) h
  · intro t n h
    rw [stage3_table]
    exact hasRows_applyNum clamp_column_length h
  · intro t t4 n h h4
    exact stage4_hasRows h h4
  · intro t t5 n h h5
    rw [stage5_ok_shape h5]
    exact hasRows_applyNum bound_column_length h

/-- Claim C8 witness: all five stages on the concrete one-row run. -/
theorem C8_witness :
    hasRows t1Neg 1 = true ∧ hasRows (stage2 t1Neg) 1 = true ∧
      hasRows (stage3 tNeg2).1 1 = true ∧ hasRows tNegFinal 1 = true ∧
      hasRows tNegFinal 1 = true :=
  ⟨C8_theorem.1 (fun _ => none) rawNeg 1 t1Neg (by with_unfolding_all decide)
      (by with_unfolding_all decide),
   C8_theorem.2.1 t1Neg 1 (by with_unfolding_all decide),
   C8_theorem.2.2.1 tNeg2 1 (by with_unfolding_all decide),
   C8_theorem.2.2.2.1 tNeg2 tNegFinal 1 (by with_unfolding_all decide)
      (by with_unfolding_all decide),
   C8_theorem.2.2.2.2 tNegFinal tNegFinal 1 (by with_unfolding_all decide)
      (by with_unfolding_all decide)⟩

/-- Claim C9: the non-designated columns — Month Name, Date, Segment,
Country, Product — are untouched by stages 2 through 5: after the full
pipeline their values equal their values after schema normalization. -/
theorem C9_theorem {t1 : Table Cell} {t4 t5 : Table (Option ℚ)}
    (h4 : stage4 (stage3 (stage2 t1)).1 = .ok t4) (h5 : stage5 t4 = .ok t5) :
    t5.monthName = t1.monthName ∧ t5.date = t1.date ∧
      t5.segment = t1.segment ∧ t5.country = t1.country ∧
      t5.product = t1.product := by
  obtain ⟨L, _, rfl⟩ := stage4_ok_shape h4
  rw [stage5_ok_shape h5]
  exact ⟨rfl, rfl, rfl, rfl, rfl⟩

/-- Claim C9 witness: the frame property on the concrete one-row run. -/
theorem C9_witness :
    tNegFinal.monthName = t1Neg.monthName ∧ tNegFinal.date = t1Neg.date ∧
      tNegFinal.segment = t1Neg.segment ∧ tNegFinal.country = t1Neg.country ∧
      tNegFinal.product = t1Neg.product :=
  @C9_theorem t1Neg tNegFinal tNegFinal (by with_unfolding_all decide)
    (by with_unfolding_all decide)

/-- Claim C10: when the two quartiles coincide (IQR = 0) both fences equal
Q1, and the Outlier Bounder replaces every non-missing value of the column
by that single value — the column collapses to a constant, missing values
excepted. -/
theorem C10_theorem {col : List (Option ℚ)} {c : ℚ}
    (h1 : quantile col (1/4) = some c) (h3 : quantile col (3/4) = some c) :
    bound_column col = col.map (Option.map (fun _ => c)) :=
  bound_column_collapse h1 h3

/-- Claim C10 witness: on `[0, 5, 5, 5, 9]` both quartiles are 5 and the
whole column collapses to 5. -/
theorem C10_witness :
    bound_column [some 0, some 5, some 5, some 5, some 9] =
      [some 5, some 5, some 5, some 5, some 5] := by
  have h := @C10_theorem [some 0, some 5, some 5, some 5, some 9] 5
    (by with_unfolding_all decide) (by with_unfolding_all decide)
  rw [h]
  with_unfolding_all decide
